import Mathlib

/-!
The `logger` package: the masking rules of `masking.go`, the global logger of
`global.go`, and the normalizer and TDR assembler that the integration tests call.

A Go `string` is an immutable sequence of bytes, `len` is its byte length and
`v[i:j]` is a byte slice.  Strings are therefore embedded as `List UInt8`.
Loops that write into a byte slice or into the slice returned by
`strings.Split` are embedded as folds over the loop index.
-/

namespace Logger

/-- A Go string: a sequence of bytes. -/
abbrev GoString := List UInt8

/-- The bytes of an ASCII literal, used to write down concrete inputs. -/
def ascii (s : String) : GoString := s.toList.map (fun c => UInt8.ofNat c.toNat)

/-- `const CharacterX = byte('X')`. -/
def CharacterX : UInt8 := 88

/-- `const CharacterAsterisk = byte('*')`. -/
def CharacterAsterisk : UInt8 := 42

/-- The separator byte of `strings.Split(customerName, " ")`. -/
def spaceByte : UInt8 := 32

/-- The separator byte of `strings.Split(email, "@")`. -/
def atByte : UInt8 := 64

/-- Go's `strings.Split(s, sep)` for a one-byte separator: the pieces of `s`
between the occurrences of `sep`; a string without `sep` (also the empty
string) gives the one-element slice `[s]`.  The library loop cuts `s` at the
first index of `sep` and goes on with the rest; `Split_of_not_mem` and
`Split_append_sep` below show that this definition does exactly that. -/
def Split (sep : UInt8) : GoString → List GoString
  | [] => [[]]
  | c :: cs =>
    if c = sep then [] :: Split sep cs
    else
      match Split sep cs with
      | [] => [[c]]
      | piece :: pieces => (c :: piece) :: pieces

/-- Go's `strings.Join(elems, sep)` for a one-byte separator. -/
def Join (sep : UInt8) : List GoString → GoString
  | [] => []
  | [e] => e
  | e :: es => e ++ sep :: Join sep es

/-- The loop `for i := range rs[:k] { rs[i] = mask }`. -/
def fillPrefix (rs : List UInt8) (k : Nat) (mask : UInt8) : List UInt8 :=
  (List.range k).foldl (fun acc i => acc.set i mask) rs

/-- The loop `for i := range rs[n:] { rs[n+i] = mask }`. -/
def fillSuffix (rs : List UInt8) (n : Nat) (mask : UInt8) : List UInt8 :=
  (List.range (rs.length - n)).foldl (fun acc i => acc.set (n + i) mask) rs

/-- `func MaskExceptLastNthCharacter(plain string, n int, mask byte) string`,
for the non-negative `n` that every caller passes. -/
def MaskExceptLastNthCharacter (plain : GoString) (n : Nat) (mask : UInt8) : GoString :=
  if plain.length ≤ n then plain
  else fillPrefix plain (plain.length - n) mask

/-- `func MaskingPhoneNumber(phoneNumber string) string`. -/
def MaskingPhoneNumber (phoneNumber : GoString) : GoString :=
  MaskExceptLastNthCharacter phoneNumber 4 CharacterX

/-- `func MaskLastNthCharacter(plain string, n int, mask byte) string`,
for the non-negative `n` that every caller passes. -/
def MaskLastNthCharacter (plain : GoString) (n : Nat) (mask : UInt8) : GoString :=
  if plain.length ≤ n then plain
  else fillSuffix plain (plain.length - n) mask

/-- `func MaskingLastCharPhoneNumber(phoneNumber string) string`. -/
def MaskingLastCharPhoneNumber (phoneNumber : GoString) : GoString :=
  MaskLastNthCharacter phoneNumber 4 CharacterX

/-- The `switch` on `len(v)` in the body of the loops of `MaskingName` and
`MaskingEmail` (the two bodies are the same text). -/
def maskToken (v : GoString) : GoString :=
  if v.length > 4 then v.take 2 ++ MaskExceptLastNthCharacter (v.drop 2) 1 CharacterAsterisk
  else if v.length > 3 then v.take 2 ++ MaskExceptLastNthCharacter (v.drop 2) 0 CharacterAsterisk
  else if v.length > 2 then v.take 1 ++ MaskExceptLastNthCharacter (v.drop 1) 0 CharacterAsterisk
  else v

/-- The loop `for i, v := range splits { splits[i] = f(v) }`: at step `i` the
element at index `i` is read and overwritten in place. -/
def rangeAssign (f : GoString → GoString) (splits : List GoString) : List GoString :=
  (List.range splits.length).foldl
    (fun acc i =>
      match acc[i]? with
      | some v => acc.set i (f v)
      | none => acc)
    splits

/-- `func MaskingName(customerName string) string`. -/
def MaskingName (customerName : GoString) : GoString :=
  if customerName = [] then []
  else Join spaceByte (rangeAssign maskToken (Split spaceByte customerName))

/-- `func MaskingEmail(email string) string`. -/
def MaskingEmail (email : GoString) : GoString :=
  if email = [] then []
  else Join atByte (rangeAssign maskToken (Split atByte email))

/-- The name `John<TAB>Doe`, with a tab byte (9) between the two words. -/
def johnTabDoe : GoString := ascii "John" ++ 9 :: ascii "Doe"

/-! The normalizer, the TDR assembler and the no-op logger.

The file that holds them is not among the sources at hand: only their tests and
callers are.  They are modelled from the specification; JSON parsing
(`encoding/json`) and the table that maps a classification to its redaction rule
are arguments of the model. -/

/-- Modelled from the spec: the classification of a record field (section 3,
Field Descriptor); the file that reads the `mask` tags is missing. -/
inductive Classification
  | none
  | pin
  | name
  | phone
  | any
  | base64
  | email
  deriving DecidableEq

/-- Modelled from the spec: the Dynamic Value of section 3, what every input is
coerced into.  A number is carried as its literal; a record field carries its
name, its classification and its value. -/
inductive Value
  | null
  | bool (b : Bool)
  | number (literal : GoString)
  | string (s : GoString)
  | sequence (items : List Value)
  | mapping (entries : List (GoString × Value))
  | record (fields : List (GoString × Classification × Value))

/-- What `encoding/json` gives for a JSON text: a scalar, an array or an object. -/
inductive Json
  | null
  | bool (b : Bool)
  | number (literal : GoString)
  | string (s : GoString)
  | array (items : List Json)
  | object (entries : List (GoString × Json))

/-- Whether a parsed JSON text is an array or an object, and not a bare scalar. -/
def Json.isCollection : Json → Bool
  | .array _ => true
  | .object _ => true
  | _ => false

mutual
/-- Modelled from the spec: the coercion of section 4.1 on parsed JSON: scalars
map directly, an array to a sequence and an object to a mapping. -/
def Json.toValue : Json → Value
  | .null => .null
  | .bool b => .bool b
  | .number literal => .number literal
  | .string s => .string s
  | .array items => .sequence (Json.itemsToValue items)
  | .object entries => .mapping (Json.entriesToValue entries)
/-- The items of a parsed array, each coerced. -/
def Json.itemsToValue : List Json → List Value
  | [] => []
  | j :: rest => Json.toValue j :: Json.itemsToValue rest
/-- The entries of a parsed object, each value coerced. -/
def Json.entriesToValue : List (GoString × Json) → List (GoString × Value)
  | [] => []
  | (k, j) :: rest => (k, Json.toValue j) :: Json.entriesToValue rest
end

/-- Modelled from the spec: the redaction step of section 4.5 on the value of a
string field after expansion: a rule is applied only when the value is still a
string, masking is enabled and the field is classified. -/
def redactLeaf (rules : Classification → GoString → GoString) (maskEnabled : Bool)
    (c : Classification) : Value → Value
  | .string s => if maskEnabled = true ∧ c ≠ Classification.none then .string (rules c s)
                 else .string s
  | v => v

mutual
/-- Modelled from the spec: the walk of section 4.5 over a coerced value, with the
treatment of a string as an argument.  Every string goes through `onString`;
sequences, mappings and records are walked; a redaction rule is applied only to a
string that is the value of a classified record field. -/
def normalizeWith (onString : GoString → Value)
    (rules : Classification → GoString → GoString) (maskEnabled : Bool) : Value → Value
  | .null => .null
  | .bool b => .bool b
  | .number literal => .number literal
  | .string s => onString s
  | .sequence items => .sequence (normalizeItems onString rules maskEnabled items)
  | .mapping entries => .mapping (normalizeEntries onString rules maskEnabled entries)
  | .record fields => .record (normalizeFields onString rules maskEnabled fields)
/-- The items of a sequence, each normalized. -/
def normalizeItems (onString : GoString → Value)
    (rules : Classification → GoString → GoString) (maskEnabled : Bool) :
    List Value → List Value
  | [] => []
  | v :: rest =>
    normalizeWith onString rules maskEnabled v
      :: normalizeItems onString rules maskEnabled rest
/-- The entries of a mapping, each value normalized. -/
def normalizeEntries (onString : GoString → Value)
    (rules : Classification → GoString → GoString) (maskEnabled : Bool) :
    List (GoString × Value) → List (GoString × Value)
  | [] => []
  | (k, v) :: rest =>
    (k, normalizeWith onString rules maskEnabled v)
      :: normalizeEntries onString rules maskEnabled rest
/-- The fields of a record: a string field is expanded and then redacted under
its classification, any other field is normalized. -/
def normalizeFields (onString : GoString → Value)
    (rules : Classification → GoString → GoString) (maskEnabled : Bool) :
    List (GoString × Classification × Value) → List (GoString × Classification × Value)
  | [] => []
  | (name, c, .string s) :: rest =>
    (name, c, redactLeaf rules maskEnabled c (onString s))
      :: normalizeFields onString rules maskEnabled rest
  | (name, c, v) :: rest =>
    (name, c, normalizeWith onString rules maskEnabled v)
      :: normalizeFields onString rules maskEnabled rest
end

/-- Modelled from the spec: the JSON-string expansion of section 4.2.  A string
that parses as an object or an array is replaced by the parsed value, coerced and
normalized in its turn, so that the strings inside it are expanded too (section 8:
`normalize(T)` equals `normalize` of the parsed `T`); when parsing fails or gives a
bare scalar the string is kept.  The recursion goes through the parser and is
bounded by `depth`, the number of levels of JSON text inside JSON text that are
expanded: a string met with no depth left is kept. -/
def expand (parse : GoString → Option Json)
    (rules : Classification → GoString → GoString) (maskEnabled : Bool) :
    Nat → GoString → Value
  | 0, s => .string s
  | depth + 1, s =>
    match parse s with
    | some (.object entries) =>
      normalizeWith (expand parse rules maskEnabled depth) rules maskEnabled
        (Json.toValue (.object entries))
    | some (.array items) =>
      normalizeWith (expand parse rules maskEnabled depth) rules maskEnabled
        (Json.toValue (.array items))
    | _ => .string s

/-- Modelled from the spec: `normalize(raw, maskEnabled)` of section 4.5 on a
coerced value, with JSON texts expanded `depth` levels deep. -/
def normalize (parse : GoString → Option Json)
    (rules : Classification → GoString → GoString) (maskEnabled : Bool) (depth : Nat)
    (v : Value) : Value :=
  normalizeWith (expand parse rules maskEnabled depth) rules maskEnabled v

/-- Modelled from the spec: the Log Context of section 3, carried per request and
merged unmasked into every record. -/
structure Context where
  ServiceName : GoString
  ServiceVersion : GoString
  ServicePort : Int
  ThreadID : GoString
  JourneyID : GoString
  ChainID : GoString
  Tag : GoString
  ReqMethod : GoString
  ReqURI : GoString
  AdditionalData : List (GoString × Value)

/-- Modelled from the spec: the TDR Record of section 3 (`LogTdrModel` in the
tests); its declaration is missing. -/
structure LogTdrModel where
  AppName : GoString
  AppVersion : GoString
  ThreadID : GoString
  JourneyID : GoString
  ChainID : GoString
  Path : GoString
  Method : GoString
  IP : GoString
  Port : Int
  SrcIP : GoString
  RespTime : Int
  ResponseCode : GoString
  Header : Value
  Request : Value
  Response : Value
  Error : GoString
  AdditionalData : Value

/-- Modelled from the spec: a payload slot of section 4.6: an absent slot
normalizes to the empty mapping, any other slot to its normalized value. -/
def normalizeSlot (parse : GoString → Option Json)
    (rules : Classification → GoString → GoString) (maskEnabled : Bool) (depth : Nat) :
    Value → Value
  | .null => .mapping []
  | v => normalize parse rules maskEnabled depth v

/-- Modelled from the spec: `assembleTDR(model, maskEnabled)` of section 4.6:
`normalize` is called with the mask flag on each of the four payload slots, the
scalar fields pass through, and the record is emitted together with the Log
Context. -/
def assembleTDR (parse : GoString → Option Json)
    (rules : Classification → GoString → GoString) (maskEnabled : Bool) (depth : Nat)
    (ctx : Context) (model : LogTdrModel) : Context × LogTdrModel :=
  (ctx,
    { model with
      Header := normalizeSlot parse rules maskEnabled depth model.Header
      Request := normalizeSlot parse rules maskEnabled depth model.Request
      Response := normalizeSlot parse rules maskEnabled depth model.Response
      AdditionalData := normalizeSlot parse rules maskEnabled depth model.AdditionalData })

mutual
/-- Whether no string inside a parsed JSON text holds a JSON object or array. -/
def Json.plain (parse : GoString → Option Json) : Json → Bool
  | .string s =>
    match parse s with
    | some j => !j.isCollection
    | none => true
  | .array items => Json.plainItems parse items
  | .object entries => Json.plainEntries parse entries
  | _ => true
/-- `Json.plain` on the items of an array. -/
def Json.plainItems (parse : GoString → Option Json) : List Json → Bool
  | [] => true
  | j :: rest => Json.plain parse j && Json.plainItems parse rest
/-- `Json.plain` on the entries of an object. -/
def Json.plainEntries (parse : GoString → Option Json) : List (GoString × Json) → Bool
  | [] => true
  | (_, j) :: rest => Json.plain parse j && Json.plainEntries parse rest
end

/-- Modelled from the spec: the rule table of section 4.4 over the functions of
`masking.go`.  The table names no mask byte: `CharacterX` is taken for Pin (the
`XX3456` of scenario 1) and, through `MaskingPhoneNumber`, for Phone, and
`CharacterAsterisk` for Any and Base64. -/
def redact : Classification → GoString → GoString
  | .none, s => s
  | .pin, s => MaskExceptLastNthCharacter s 4 CharacterX
  | .phone, s => MaskingPhoneNumber s
  | .name, s => MaskingName s
  | .email, s => MaskingEmail s
  | .any, s => MaskExceptLastNthCharacter s 3 CharacterAsterisk
  | .base64, s => MaskExceptLastNthCharacter s 3 CharacterAsterisk

/-- The JSON text `{"status":"00","data":{"mobile":"6281297191466"}}`. -/
def statusJSON : GoString :=
  ascii "\x7b\x22status\x22:\x2200\x22,\x22data\x22:\x7b\x22mobile\x22:\x226281297191466\x22\x7d\x7d"

/-- The object that `statusJSON` denotes. -/
def statusEntries : List (GoString × Json) :=
  [(ascii "status", .string (ascii "00")),
   (ascii "data", .object [(ascii "mobile", .string (ascii "6281297191466"))])]

/-- The JSON text `{"status":"00"}`. -/
def innerJSON : GoString := ascii "\x7b\x22status\x22:\x2200\x22\x7d"

/-- The JSON text `{"data":"{\"status\":\"00\"}"}`: an object whose `data` is a
string that holds the JSON text `innerJSON`. -/
def nestedJSON : GoString :=
  ascii "\x7b\x22data\x22:\x22\x7b\x5c\x22status\x5c\x22:\x5c\x2200\x5c\x22\x7d\x22\x7d"

/-- The JSON text `{"json":"lorem ipsum sit dolor amet"}`, the `Text` of the test
`unmasked: json proto message`. -/
def loremJSON : GoString :=
  ascii "\x7b\x22json\x22:\x22lorem ipsum sit dolor amet\x22\x7d"

/-- A JSON parser restricted to the strings of the examples: `statusJSON`,
`innerJSON`, `nestedJSON` and `loremJSON` parse to the objects they denote,
`123456` to a number, and no other string parses. -/
def parseExample (s : GoString) : Option Json :=
  if s = statusJSON then some (.object statusEntries)
  else if s = innerJSON then some (.object [(ascii "status", .string (ascii "00"))])
  else if s = nestedJSON then some (.object [(ascii "data", .string innerJSON)])
  else if s = loremJSON then
    some (.object [(ascii "json", .string (ascii "lorem ipsum sit dolor amet"))])
  else if s = ascii "123456" then some (.number s)
  else none

/-- The Log Context of the integration tests (`ctxValue`), with fixed identifiers. -/
def ctxValue : Context :=
  { ServiceName := ascii "my service name"
    ServiceVersion := ascii "1"
    ServicePort := 8000
    ThreadID := ascii "1"
    JourneyID := ascii "2"
    ChainID := ascii "3"
    Tag := ascii "my-tag"
    ReqMethod := ascii "POST"
    ReqURI := ascii "/my-uri"
    AdditionalData := [(ascii "foo", .string (ascii "bar"))] }

/-- The TDR of the integration tests (`tdrData`) with the given header, request,
response and additional data. -/
def tdrData (header request response additionalData : Value) : LogTdrModel :=
  { AppName := ascii "nama service"
    AppVersion := ascii "versi"
    ThreadID := ascii "thread id"
    JourneyID := ascii "journey id"
    ChainID := ascii "chain id"
    Path := ascii "path"
    Method := ascii "method"
    IP := ascii "IP"
    Port := 1234
    SrcIP := ascii "source ipd"
    RespTime := 12
    ResponseCode := ascii "response code"
    Header := header
    Request := request
    Response := response
    Error := ascii "error if any"
    AdditionalData := additionalData }

/-- How a call of a logger method ends. -/
inductive Outcome
  | returned
  | panicked
  | exited
  deriving DecidableEq

/-- What a call of a logger method does: how it ends and the lines it writes. -/
structure Effect where
  outcome : Outcome
  written : List GoString

/-- A field of a log entry, as built by `ToField(key, value)`. -/
structure Field where
  Key : GoString
  Val : Value

/-- The `Logger` interface as `global.go` uses it: the seven methods that the
package-level functions call. -/
structure LoggerInterface where
  Debug : Context → GoString → List Field → Effect
  Info : Context → GoString → List Field → Effect
  Warn : Context → GoString → List Field → Effect
  Error : Context → GoString → List Field → Effect
  Fatal : Context → GoString → List Field → Effect
  Panic : Context → GoString → List Field → Effect
  TDR : Context → LogTdrModel → Effect

/-- Modelled from the spec: `NewNoopLogger()`, the no-op default implementation of
section 9; its file is missing.  Every method returns and writes nothing. -/
def NewNoopLogger : LoggerInterface :=
  { Debug := fun _ _ _ => ⟨.returned, []⟩
    Info := fun _ _ _ => ⟨.returned, []⟩
    Warn := fun _ _ _ => ⟨.returned, []⟩
    Error := fun _ _ _ => ⟨.returned, []⟩
    Fatal := fun _ _ _ => ⟨.returned, []⟩
    Panic := fun _ _ _ => ⟨.returned, []⟩
    TDR := fun _ _ => ⟨.returned, []⟩ }

/-- `func SetGlobalLogger(in Logger)`: the new value of the package variable
`instance`; `none` is the nil interface, which is also its value when unset. -/
def SetGlobalLogger (input : Option LoggerInterface) : Option LoggerInterface :=
  input

/-- `func getInstance() Logger`, on the value of the package variable `instance`. -/
def getInstance (globalInstance : Option LoggerInterface) : LoggerInterface :=
  match globalInstance with
  | none => NewNoopLogger
  | some l => l

/-- `func Debug(ctx context.Context, message string, fields ...Field)`. -/
def Debug (globalInstance : Option LoggerInterface) (ctx : Context) (message : GoString)
    (fields : List Field) : Effect :=
  (getInstance globalInstance).Debug ctx message fields

/-- `func Info(ctx context.Context, message string, fields ...Field)`. -/
def Info (globalInstance : Option LoggerInterface) (ctx : Context) (message : GoString)
    (fields : List Field) : Effect :=
  (getInstance globalInstance).Info ctx message fields

/-- `func Warn(ctx context.Context, message string, fields ...Field)`. -/
def Warn (globalInstance : Option LoggerInterface) (ctx : Context) (message : GoString)
    (fields : List Field) : Effect :=
  (getInstance globalInstance).Warn ctx message fields

/-- `func Error(ctx context.Context, message string, fields ...Field)`. -/
def Error (globalInstance : Option LoggerInterface) (ctx : Context) (message : GoString)
    (fields : List Field) : Effect :=
  (getInstance globalInstance).Error ctx message fields

/-- `func Fatal(ctx context.Context, message string, fields ...Field)`. -/
def Fatal (globalInstance : Option LoggerInterface) (ctx : Context) (message : GoString)
    (fields : List Field) : Effect :=
  (getInstance globalInstance).Fatal ctx message fields

/-- `func Panic(ctx context.Context, message string, fields ...Field)`. -/
def Panic (globalInstance : Option LoggerInterface) (ctx : Context) (message : GoString)
    (fields : List Field) : Effect :=
  (getInstance globalInstance).Panic ctx message fields

/-- `func TDR(ctx context.Context, tdr LogTdrModel)`. -/
def TDR (globalInstance : Option LoggerInterface) (ctx : Context) (tdr : LogTdrModel) :
    Effect :=
  (getInstance globalInstance).TDR ctx tdr

/-- A logger whose `Fatal` exits, whose `Panic` panics and whose other methods
write one line, used as a concrete non-nil logger. -/
def lineLogger : LoggerInterface :=
  { Debug := fun _ message _ => ⟨.returned, [ascii "debug|" ++ message]⟩
    Info := fun _ message _ => ⟨.returned, [ascii "info|" ++ message]⟩
    Warn := fun _ message _ => ⟨.returned, [ascii "warn|" ++ message]⟩
    Error := fun _ message _ => ⟨.returned, [ascii "error|" ++ message]⟩
    Fatal := fun _ message _ => ⟨.exited, [ascii "fatal|" ++ message]⟩
    Panic := fun _ message _ => ⟨.panicked, [ascii "panic|" ++ message]⟩
    TDR := fun _ tdr => ⟨.returned, [ascii "TDR|" ++ tdr.AppName]⟩ }

/-! `SanitizePhoneNumber` of `formatiting.go` and the max age of `WithFileOutput`
in `opt.go`. -/

/-- Go's `strings.HasPrefix(s, p)`: `len(s) >= len(p) && s[:len(p)] == p`. -/
def HasPrefix (s p : GoString) : Bool :=
  decide (p.length ≤ s.length) && decide (s.take p.length = p)

/-- `func SanitizePhoneNumber(phoneNumber string) string`. -/
def SanitizePhoneNumber (phoneNumber : GoString) : GoString :=
  if HasPrefix phoneNumber (ascii "628") = true then phoneNumber
  else if HasPrefix phoneNumber (ascii "08") = true then ascii "628" ++ phoneNumber.drop 2
  else if HasPrefix phoneNumber (ascii "8") = true then ascii "628" ++ phoneNumber.drop 1
  else phoneNumber

/-- The value that an `int64` computation leaves for the mathematical result `x`:
the representative of `x` modulo `2^64` in the range from `-2^63` to `2^63 - 1`. -/
def wrapInt64 (x : Int) : Int :=
  (x + 9223372036854775808) % 18446744073709551616 - 9223372036854775808

/-- `time.Hour`, in nanoseconds. -/
def timeHour : Int := 3600000000000

/-- The argument of `rotateLogs.WithMaxAge` in `WithFileOutput`,
`conf.FileMaxAge*24*time.Hour`: two `int64` multiplications, from left to right,
on the `time.Duration` that `FileMaxAge` holds. -/
def fileMaxAge (FileMaxAge : Int) : Int :=
  wrapInt64 (wrapInt64 (FileMaxAge * 24) * timeHour)

end Logger

namespace Logger

/-! The loops -/

theorem set_at_length {α : Type} (l r : List α) (a b : α) (k : Nat) (h : l.length = k) :
    (l ++ a :: r).set k b = l ++ b :: r := by
  subst h
  simp

theorem get_at_length {α : Type} (l r : List α) (a : α) (k : Nat) (h : l.length = k) :
    (l ++ a :: r)[k]? = some a := by
  subst h
  rw [List.getElem?_append_right (Nat.le_refl _)]
  simp

theorem drop_eq_cons {α : Type} (l : List α) (k : Nat) (h : k < l.length) :
    l.drop k = l[k] :: l.drop (k + 1) := by
  simp

theorem fillPrefix_eq (rs : List UInt8) (mask : UInt8) :
    ∀ k, k ≤ rs.length → fillPrefix rs k mask = List.replicate k mask ++ rs.drop k := by
  intro k
  induction k with
  | zero => intro _; simp [fillPrefix]
  | succ k ih =>
    intro hk
    have ih' := ih (Nat.le_of_succ_le hk)
    unfold fillPrefix at ih' ⊢
    rw [List.range_succ, List.foldl_append, ih', drop_eq_cons rs k hk]
    simp only [List.foldl_cons, List.foldl_nil]
    rw [set_at_length _ _ _ _ k (by simp), List.replicate_succ', List.append_assoc]
    rfl

theorem fillSuffix_aux (rs : List UInt8) (n : Nat) (mask : UInt8) :
    ∀ j, n + j ≤ rs.length →
      (List.range j).foldl (fun acc i => acc.set (n + i) mask) rs
        = (rs.take n ++ List.replicate j mask) ++ rs.drop (n + j) := by
  intro j
  induction j with
  | zero => intro _; simp
  | succ j ih =>
    intro hj
    have ih' := ih (by omega)
    rw [List.range_succ, List.foldl_append, ih', drop_eq_cons rs (n + j) (by omega)]
    simp only [List.foldl_cons, List.foldl_nil]
    rw [set_at_length _ _ _ _ (n + j) (by simp; omega), List.replicate_succ']
    simp [Nat.add_assoc]

theorem fillSuffix_eq (rs : List UInt8) (n : Nat) (mask : UInt8) (hn : n ≤ rs.length) :
    fillSuffix rs n mask = rs.take n ++ List.replicate (rs.length - n) mask := by
  unfold fillSuffix
  rw [fillSuffix_aux rs n mask (rs.length - n) (by omega)]
  have : n + (rs.length - n) = rs.length := by omega
  simp [this]

theorem rangeAssign_aux (f : GoString → GoString) (xs : List GoString) :
    ∀ k, k ≤ xs.length →
      (List.range k).foldl
        (fun acc i =>
          match acc[i]? with
          | some v => acc.set i (f v)
          | none => acc) xs
        = (xs.take k).map f ++ xs.drop k := by
  intro k
  induction k with
  | zero => intro _; simp
  | succ k ih =>
    intro hk
    have ih' := ih (Nat.le_of_succ_le hk)
    have hlt : k < xs.length := hk
    have hlen : ((xs.take k).map f).length = k := by simp; omega
    rw [List.range_succ, List.foldl_append, ih', drop_eq_cons xs k hk]
    simp only [List.foldl_cons, List.foldl_nil]
    rw [get_at_length _ _ _ k hlen]
    simp only
    rw [set_at_length _ _ _ _ k hlen, List.take_succ, List.getElem?_eq_getElem hlt]
    simp only [Option.toList, List.map_append, List.map_cons, List.map_nil, List.append_assoc,
      List.singleton_append]

theorem rangeAssign_eq_map (f : GoString → GoString) (xs : List GoString) :
    rangeAssign f xs = xs.map f := by
  unfold rangeAssign
  rw [rangeAssign_aux f xs xs.length (Nat.le_refl _)]
  simp

/-! `strings.Split` and `strings.Join` -/

theorem Split_ne_nil (sep : UInt8) : ∀ s, Split sep s ≠ [] := by
  intro s
  cases s with
  | nil => simp [Split]
  | cons c cs =>
    unfold Split
    split_ifs
    · simp
    · cases Split sep cs <;> simp

theorem Split_cons_sep (sep : UInt8) (cs : GoString) :
    Split sep (sep :: cs) = [] :: Split sep cs := by
  simp [Split]

theorem Split_cons_ne (sep c : UInt8) (cs : GoString) (h : c ≠ sep) :
    ∃ p ps, Split sep cs = p :: ps ∧ Split sep (c :: cs) = (c :: p) :: ps := by
  cases hs : Split sep cs with
  | nil => exact absurd hs (Split_ne_nil sep cs)
  | cons p ps =>
    refine ⟨p, ps, rfl, ?_⟩
    rw [Split, if_neg h, hs]

theorem Join_cons_of_ne_nil (sep : UInt8) (a : GoString) (l : List GoString) (h : l ≠ []) :
    Join sep (a :: l) = a ++ sep :: Join sep l := by
  cases l with
  | nil => exact absurd rfl h
  | cons b r => rfl

theorem Join_cons_head (sep c : UInt8) (p : GoString) (ps : List GoString) :
    Join sep ((c :: p) :: ps) = c :: Join sep (p :: ps) := by
  cases ps with
  | nil => rfl
  | cons b r => rfl

theorem Join_Split (sep : UInt8) : ∀ s, Join sep (Split sep s) = s := by
  intro s
  induction s with
  | nil => rfl
  | cons c cs ih =>
    by_cases h : c = sep
    · subst h
      rw [Split_cons_sep, Join_cons_of_ne_nil _ _ _ (Split_ne_nil _ _), ih]
      rfl
    · obtain ⟨p, ps, h1, h2⟩ := Split_cons_ne sep c cs h
      rw [h2, Join_cons_head, ← h1, ih]

theorem Split_of_not_mem (sep : UInt8) : ∀ s, sep ∉ s → Split sep s = [s] := by
  intro s
  induction s with
  | nil => intro _; rfl
  | cons c cs ih =>
    intro h
    have hc : c ≠ sep := fun e => h (by simp [e])
    have hcs : sep ∉ cs := fun e => h (List.mem_cons_of_mem _ e)
    rw [Split, if_neg hc, ih hcs]

theorem Split_append_sep (sep : UInt8) (b : GoString) :
    ∀ a, sep ∉ a → Split sep (a ++ sep :: b) = a :: Split sep b := by
  intro a
  induction a with
  | nil => intro _; exact Split_cons_sep sep b
  | cons c cs ih =>
    intro h
    have hc : c ≠ sep := fun e => h (by simp [e])
    have hcs : sep ∉ cs := fun e => h (List.mem_cons_of_mem _ e)
    rw [List.cons_append, Split, if_neg hc, ih hcs]

theorem Split_Join (sep : UInt8) :
    ∀ l : List GoString, l ≠ [] → (∀ t ∈ l, sep ∉ t) → Split sep (Join sep l) = l := by
  intro l
  induction l with
  | nil => intro h _; exact absurd rfl h
  | cons a r ih =>
    intro _ hall
    cases r with
    | nil => exact Split_of_not_mem sep a (hall a (by simp))
    | cons b r2 =>
      rw [Join_cons_of_ne_nil _ _ _ (by simp), Split_append_sep _ _ _ (hall a (by simp)),
        ih (by simp) (fun t ht => hall t (List.mem_cons_of_mem _ ht))]

theorem Split_noSep (sep : UInt8) : ∀ s, ∀ t ∈ Split sep s, sep ∉ t := by
  intro s
  induction s with
  | nil => intro t ht; simp [Split] at ht; simp [ht]
  | cons c cs ih =>
    intro t ht
    by_cases h : c = sep
    · subst h
      rw [Split_cons_sep] at ht
      rcases List.mem_cons.mp ht with e | e
      · simp [e]
      · exact ih t e
    · obtain ⟨p, ps, h1, h2⟩ := Split_cons_ne sep c cs h
      rw [h2] at ht
      rw [h1] at ih
      rcases List.mem_cons.mp ht with e | e
      · subst e
        intro hm
        rcases List.mem_cons.mp hm with e2 | e2
        · exact h e2.symm
        · exact ih p (by simp) e2
      · exact ih t (List.mem_cons_of_mem _ e)

theorem length_Join_map (sep : UInt8) (f : GoString → GoString)
    (hf : ∀ t, (f t).length = t.length) :
    ∀ l : List GoString, (Join sep (l.map f)).length = (Join sep l).length := by
  intro l
  induction l with
  | nil => rfl
  | cons a r ih =>
    cases r with
    | nil => exact hf a
    | cons b r2 =>
      rw [List.map_cons, Join_cons_of_ne_nil _ _ _ (by simp), Join_cons_of_ne_nil _ _ _ (by simp)]
      simp only [List.length_append, List.length_cons, hf, ih]

/-! The single-string masks -/

theorem maskExcept_eq (s : GoString) (n : Nat) (m : UInt8) :
    MaskExceptLastNthCharacter s n m
      = if s.length ≤ n then s
        else List.replicate (s.length - n) m ++ s.drop (s.length - n) := by
  unfold MaskExceptLastNthCharacter
  split_ifs with h
  · rfl
  · exact fillPrefix_eq s m (s.length - n) (Nat.sub_le _ _)

theorem maskLast_eq (s : GoString) (n : Nat) (m : UInt8) :
    MaskLastNthCharacter s n m
      = if s.length ≤ n then s
        else s.take (s.length - n) ++ List.replicate n m := by
  unfold MaskLastNthCharacter
  split_ifs with h
  · rfl
  · rw [fillSuffix_eq s (s.length - n) m (Nat.sub_le _ _)]
    have : s.length - (s.length - n) = n := by omega
    rw [this]

theorem length_maskExcept (s : GoString) (n : Nat) (m : UInt8) :
    (MaskExceptLastNthCharacter s n m).length = s.length := by
  rw [maskExcept_eq]
  split_ifs with h
  · rfl
  · simp

theorem length_maskLast (s : GoString) (n : Nat) (m : UInt8) :
    (MaskLastNthCharacter s n m).length = s.length := by
  rw [maskLast_eq]
  split_ifs with h
  · rfl
  · simp; omega

/-! The token rule -/

theorem maskToken_eq (v : GoString) :
    maskToken v
      = if v.length > 4 then
          v.take 2 ++ (List.replicate (v.length - 3) CharacterAsterisk ++ v.drop (v.length - 1))
        else if v.length = 4 then v.take 2 ++ List.replicate 2 CharacterAsterisk
        else if v.length = 3 then v.take 1 ++ List.replicate 2 CharacterAsterisk
        else v := by
  unfold maskToken
  by_cases h4 : v.length > 4
  · rw [if_pos h4, if_pos h4, maskExcept_eq, List.length_drop, if_neg (by omega), List.drop_drop]
    have e1 : v.length - 2 - 1 = v.length - 3 := by omega
    have e2 : 2 + (v.length - 3) = v.length - 1 := by omega
    have e3 : v.length - 3 + 2 = v.length - 1 := by omega
    simp only [e1, e2, e3]
  · rw [if_neg h4, if_neg h4]
    by_cases h3 : v.length > 3
    · have e : v.length = 4 := by omega
      rw [if_pos h3, if_pos e, maskExcept_eq, List.length_drop, if_neg (by omega)]
      simp [e]
    · have n4 : ¬ v.length = 4 := by omega
      rw [if_neg h3, if_neg n4]
      by_cases h2 : v.length > 2
      · have e : v.length = 3 := by omega
        rw [if_pos h2, if_pos e, maskExcept_eq, List.length_drop, if_neg (by omega)]
        simp [e]
      · have n3 : ¬ v.length = 3 := by omega
        rw [if_neg h2, if_neg n3]

theorem length_maskToken (v : GoString) : (maskToken v).length = v.length := by
  unfold maskToken
  split_ifs <;> simp [length_maskExcept] <;> omega

theorem maskToken_noSep (sep : UInt8) (hsep : sep ≠ CharacterAsterisk) (v : GoString)
    (hv : sep ∉ v) : sep ∉ maskToken v := by
  rw [maskToken_eq]
  have ht : ∀ k, sep ∉ v.take k := fun k hm => hv (List.mem_of_mem_take hm)
  have hd : ∀ k, sep ∉ v.drop k := fun k hm => hv (List.mem_of_mem_drop hm)
  have hr : ∀ k, sep ∉ List.replicate k CharacterAsterisk :=
    fun k hm => hsep (List.eq_of_mem_replicate hm)
  split_ifs
  · simp only [List.mem_append, not_or]
    exact ⟨ht _, hr _, hd _⟩
  · simp only [List.mem_append, not_or]
    exact ⟨ht _, hr _⟩
  · simp only [List.mem_append, not_or]
    exact ⟨ht _, hr _⟩
  · exact hv

theorem maskToken_idem (v : GoString) : maskToken (maskToken v) = maskToken v := by
  have hl := length_maskToken v
  rw [maskToken_eq (maskToken v), hl]
  by_cases h4 : v.length > 4
  · rw [if_pos h4]
    have hv := maskToken_eq v
    rw [if_pos h4] at hv
    have t2 : (maskToken v).take 2 = v.take 2 := by
      rw [hv]
      exact List.take_left' (by simp; omega)
    have d1 : (maskToken v).drop (v.length - 1) = v.drop (v.length - 1) := by
      rw [hv, ← List.append_assoc]
      exact List.drop_left' (by simp; omega)
    rw [t2, d1, ← hv]
  · rw [if_neg h4]
    by_cases h3 : v.length = 4
    · rw [if_pos h3]
      have hv := maskToken_eq v
      rw [if_neg h4, if_pos h3] at hv
      have t2 : (maskToken v).take 2 = v.take 2 := by
        rw [hv]
        exact List.take_left' (by simp; omega)
      rw [t2, ← hv]
    · rw [if_neg h3]
      by_cases h2 : v.length = 3
      · rw [if_pos h2]
        have hv := maskToken_eq v
        rw [if_neg h4, if_neg h3, if_pos h2] at hv
        have t1 : (maskToken v).take 1 = v.take 1 := by
          rw [hv]
          exact List.take_left' (by simp; omega)
        rw [t1, ← hv]
      · rw [if_neg h2]

/-! `MaskingName` and `MaskingEmail` as split, map, join -/

theorem MaskingName_eq (s : GoString) :
    MaskingName s = Join spaceByte ((Split spaceByte s).map maskToken) := by
  unfold MaskingName
  rw [rangeAssign_eq_map]
  split_ifs with h
  · subst h
    rfl
  · rfl

theorem MaskingEmail_eq (s : GoString) :
    MaskingEmail s = Join atByte ((Split atByte s).map maskToken) := by
  unfold MaskingEmail
  rw [rangeAssign_eq_map]
  split_ifs with h
  · subst h
    rfl
  · rfl

theorem MaskingName_token (t : GoString) (h : spaceByte ∉ t) : MaskingName t = maskToken t := by
  rw [MaskingName_eq, Split_of_not_mem _ _ h]
  rfl

theorem MaskingEmail_token (t : GoString) (h : atByte ∉ t) : MaskingEmail t = maskToken t := by
  rw [MaskingEmail_eq, Split_of_not_mem _ _ h]
  rfl

theorem maskExcept_idem (s : GoString) (n : Nat) (m : UInt8) :
    MaskExceptLastNthCharacter (MaskExceptLastNthCharacter s n m) n m
      = MaskExceptLastNthCharacter s n m := by
  have hl := length_maskExcept s n m
  rw [maskExcept_eq (MaskExceptLastNthCharacter s n m), hl]
  by_cases h : s.length ≤ n
  · rw [if_pos h]
  · rw [if_neg h]
    have hs := maskExcept_eq s n m
    rw [if_neg h] at hs
    have hd : (MaskExceptLastNthCharacter s n m).drop (s.length - n) = s.drop (s.length - n) := by
      rw [hs]
      exact List.drop_left' (by simp)
    rw [hd, ← hs]

theorem splitMapJoin_idem (sep : UInt8) (hsep : sep ≠ CharacterAsterisk) (s : GoString) :
    Join sep ((Split sep (Join sep ((Split sep s).map maskToken))).map maskToken)
      = Join sep ((Split sep s).map maskToken) := by
  have hne : (Split sep s).map maskToken ≠ [] := by
    simpa using Split_ne_nil sep s
  have hall : ∀ t ∈ (Split sep s).map maskToken, sep ∉ t := by
    intro t ht
    obtain ⟨u, hu, rfl⟩ := List.mem_map.mp ht
    exact maskToken_noSep sep hsep u (Split_noSep sep s u hu)
  rw [Split_Join sep _ hne hall, List.map_map]
  congr 1
  apply List.map_congr_left
  intro t _
  exact maskToken_idem t

theorem maskToken_short (v : GoString) (h : v.length ≤ 2) : maskToken v = v := by
  unfold maskToken
  rw [if_neg (by omega), if_neg (by omega), if_neg (by omega)]

theorem map_maskToken_short (l : List GoString) (h : ∀ t ∈ l, t.length ≤ 2) :
    l.map maskToken = l := by
  induction l with
  | nil => rfl
  | cons a r ih =>
    rw [List.map_cons, maskToken_short a (h a (by simp)),
      ih (fun t ht => h t (List.mem_cons_of_mem _ ht))]

theorem sepPos_append (sep : UInt8) (a a' J J' : GoString) (hla : a'.length = a.length)
    (ha : sep ∉ a) (ha' : sep ∉ a')
    (hJ : ∀ i : Nat, J'[i]? = some sep ↔ J[i]? = some sep) :
    ∀ i : Nat, (a' ++ sep :: J')[i]? = some sep ↔ (a ++ sep :: J)[i]? = some sep := by
  intro i
  rcases Nat.lt_trichotomy i a.length with hlt | heq | hgt
  · rw [List.getElem?_append_left (by omega), List.getElem?_append_left hlt]
    constructor
    · intro h
      exact absurd (List.getElem?_mem h) ha'
    · intro h
      exact absurd (List.getElem?_mem h) ha
  · rw [get_at_length a' J' sep i (by omega), get_at_length a J sep i heq.symm]
  · rw [List.getElem?_append_right (by omega), List.getElem?_append_right (by omega), hla]
    obtain ⟨k, hk⟩ : ∃ k, i - a.length = k + 1 := ⟨i - a.length - 1, by omega⟩
    rw [hk, List.getElem?_cons_succ, List.getElem?_cons_succ]
    exact hJ k

theorem sepPos_Join_map (sep : UInt8) (f : GoString → GoString)
    (hlen : ∀ t, (f t).length = t.length) (hf : ∀ t, sep ∉ t → sep ∉ f t) :
    ∀ l : List GoString, (∀ t ∈ l, sep ∉ t) →
      ∀ i : Nat, (Join sep (l.map f))[i]? = some sep ↔ (Join sep l)[i]? = some sep := by
  intro l
  induction l with
  | nil => intro _ i; rfl
  | cons a r ih =>
    intro hall
    have ha : sep ∉ a := hall a (by simp)
    cases r with
    | nil =>
      intro i
      constructor
      · intro h
        exact absurd (List.getElem?_mem h) (hf a ha)
      · intro h
        exact absurd (List.getElem?_mem h) ha
    | cons b r2 =>
      rw [List.map_cons, Join_cons_of_ne_nil _ _ _ (by simp), Join_cons_of_ne_nil _ _ _ (by simp)]
      exact sepPos_append sep a (f a) _ _ (hlen a) ha (hf a ha)
        (ih (fun t ht => hall t (List.mem_cons_of_mem _ ht)))

theorem MaskingName_Join (l : List GoString) (hl : l ≠ []) (hall : ∀ t ∈ l, spaceByte ∉ t) :
    MaskingName (Join spaceByte l) = Join spaceByte (l.map maskToken) := by
  rw [MaskingName_eq, Split_Join _ l hl hall]

/-! The claims -/

/-- C1: `MaskExceptLastNthCharacter(s, n, m)` is `s` when `len(s) <= n` and otherwise
`len(s) - n` copies of `m` followed by the last `n` bytes of `s`; `MaskingPhoneNumber` is
this function at `n = 4`, `m = 'X'`, and `"123456"` gives `"XX3456"`. -/
theorem C1_maskExceptLastNth_spec (s : GoString) (n : Nat) (m : UInt8) :
    MaskExceptLastNthCharacter s n m
        = (if s.length ≤ n then s
           else List.replicate (s.length - n) m ++ s.drop (s.length - n))
      ∧ MaskingPhoneNumber s = MaskExceptLastNthCharacter s 4 88
      ∧ MaskExceptLastNthCharacter (ascii "123456") 4 88 = ascii "XX3456" :=
  ⟨maskExcept_eq s n m, rfl, by decide⟩

/-- C2: for a token `t` without a space, `MaskingName(t)` is the first 2 bytes, `len(t) - 3`
asterisks and the last byte when `len(t) > 4`; the first 2 bytes and `"**"` when
`len(t) = 4`; the first byte and `"**"` when `len(t) = 3`; and `t` when `len(t) <= 2`. -/
theorem C2_maskingName_token_tiers (t : GoString) (h : spaceByte ∉ t) :
    MaskingName t
      = if t.length > 4 then
          t.take 2 ++ (List.replicate (t.length - 3) 42 ++ t.drop (t.length - 1))
        else if t.length = 4 then t.take 2 ++ [42, 42]
        else if t.length = 3 then t.take 1 ++ [42, 42]
        else t := by
  rw [MaskingName_token t h, maskToken_eq]
  rfl

theorem C2_maskingName_token_tiers_witness :
    spaceByte ∉ ascii "Johnny"
      ∧ MaskingName (ascii "Johnny")
          = if (ascii "Johnny").length > 4 then
              (ascii "Johnny").take 2
                ++ (List.replicate ((ascii "Johnny").length - 3) 42
                  ++ (ascii "Johnny").drop ((ascii "Johnny").length - 1))
            else if (ascii "Johnny").length = 4 then (ascii "Johnny").take 2 ++ [42, 42]
            else if (ascii "Johnny").length = 3 then (ascii "Johnny").take 1 ++ [42, 42]
            else ascii "Johnny" :=
  ⟨by decide, C2_maskingName_token_tiers (ascii "Johnny") (by decide)⟩

/-- C3: masking never changes the byte length: `MaskingName`, `MaskingEmail`,
`MaskingPhoneNumber`, `MaskExceptLastNthCharacter`, `MaskingLastCharPhoneNumber` and
`MaskLastNthCharacter` all return a string as long as their input. -/
theorem C3_masking_preserves_length (s : GoString) (n : Nat) (m : UInt8) :
    (MaskingName s).length = s.length
      ∧ (MaskingEmail s).length = s.length
      ∧ (MaskingPhoneNumber s).length = s.length
      ∧ (MaskExceptLastNthCharacter s n m).length = s.length
      ∧ (MaskingLastCharPhoneNumber s).length = s.length
      ∧ (MaskLastNthCharacter s n m).length = s.length := by
  refine ⟨?_, ?_, length_maskExcept s 4 _, length_maskExcept s n m, length_maskLast s 4 _,
    length_maskLast s n m⟩
  · rw [MaskingName_eq, length_Join_map _ _ length_maskToken, Join_Split]
  · rw [MaskingEmail_eq, length_Join_map _ _ length_maskToken, Join_Split]

/-- C4: short strings are exempt: a string of at most 4 bytes is returned unchanged by
`MaskingPhoneNumber`, one of at most 3 bytes by `MaskExceptLastNthCharacter(·, 3, '*')`, and
a string all of whose space-separated tokens (resp. `'@'`-separated parts) have at most 2
bytes by `MaskingName` (resp. `MaskingEmail`); the empty string is returned unchanged. -/
theorem C4_short_string_exemption (a b c d : GoString)
    (ha : a.length ≤ 4) (hb : b.length ≤ 3)
    (hc : ∀ t ∈ Split spaceByte c, t.length ≤ 2)
    (hd : ∀ t ∈ Split atByte d, t.length ≤ 2) :
    MaskingPhoneNumber a = a
      ∧ MaskExceptLastNthCharacter b 3 42 = b
      ∧ MaskingName c = c
      ∧ MaskingEmail d = d
      ∧ MaskingName [] = []
      ∧ MaskingEmail [] = [] := by
  refine ⟨?_, ?_, ?_, ?_, rfl, rfl⟩
  · unfold MaskingPhoneNumber MaskExceptLastNthCharacter
    rw [if_pos ha]
  · unfold MaskExceptLastNthCharacter
    rw [if_pos hb]
  · rw [MaskingName_eq, map_maskToken_short _ hc, Join_Split]
  · rw [MaskingEmail_eq, map_maskToken_short _ hd, Join_Split]

theorem C4_short_string_exemption_witness :
    MaskingPhoneNumber (ascii "1234") = ascii "1234"
      ∧ MaskExceptLastNthCharacter (ascii "abc") 3 42 = ascii "abc"
      ∧ MaskingName (ascii "Le Bo") = ascii "Le Bo"
      ∧ MaskingEmail (ascii "ab@cd") = ascii "ab@cd"
      ∧ MaskingName [] = []
      ∧ MaskingEmail [] = [] :=
  C4_short_string_exemption (ascii "1234") (ascii "abc") (ascii "Le Bo") (ascii "ab@cd")
    (by decide) (by decide) (by decide) (by decide)

/-- C5: the Email rule is the Name token rule on each `'@'`-separated part: for a local part
`l` and a domain part `d` that contain neither `'@'` nor `' '`,
`MaskingEmail(l + "@" + d) = MaskingName(l) + "@" + MaskingName(d)`. -/
theorem C5_email_is_name_per_part (l d : GoString)
    (hl : atByte ∉ l) (hls : spaceByte ∉ l) (hd : atByte ∉ d) (hds : spaceByte ∉ d) :
    MaskingEmail (l ++ atByte :: d) = MaskingName l ++ atByte :: MaskingName d := by
  rw [MaskingEmail_eq, Split_append_sep _ _ _ hl, Split_of_not_mem _ _ hd,
    MaskingName_token l hls, MaskingName_token d hds]
  rfl

theorem C5_email_is_name_per_part_witness :
    MaskingEmail (ascii "nur" ++ atByte :: ascii "gmail.com")
      = MaskingName (ascii "nur") ++ atByte :: MaskingName (ascii "gmail.com") :=
  C5_email_is_name_per_part (ascii "nur") (ascii "gmail.com")
    (by decide) (by decide) (by decide) (by decide)

/-- C6: each redaction rule is idempotent: masking the output of `MaskingName`,
`MaskingEmail`, `MaskingPhoneNumber` or `MaskExceptLastNthCharacter(·, n, m)` again with the
same rule gives the same string. -/
theorem C6_masking_idempotent (s : GoString) (n : Nat) (m : UInt8) :
    MaskingName (MaskingName s) = MaskingName s
      ∧ MaskingEmail (MaskingEmail s) = MaskingEmail s
      ∧ MaskingPhoneNumber (MaskingPhoneNumber s) = MaskingPhoneNumber s
      ∧ MaskExceptLastNthCharacter (MaskExceptLastNthCharacter s n m) n m
          = MaskExceptLastNthCharacter s n m := by
  refine ⟨?_, ?_, maskExcept_idem s 4 _, maskExcept_idem s n m⟩
  · rw [MaskingName_eq (MaskingName s), MaskingName_eq s]
    exact splitMapJoin_idem spaceByte (by decide) s
  · rw [MaskingEmail_eq (MaskingEmail s), MaskingEmail_eq s]
    exact splitMapJoin_idem atByte (by decide) s

/-- C7, as the claim states it, fails: in `John<TAB>Doe` the byte at position 4 is a tab, but
`MaskingName` returns `Jo*****e`, with an asterisk at position 4: the tab is not a
separator, and `John` and `Doe` are not masked as separate tokens. -/
theorem C7_tab_not_preserved :
    johnTabDoe[4]? = some 9
      ∧ (MaskingName johnTabDoe)[4]? = some 42
      ∧ MaskingName johnTabDoe = ascii "Jo*****e"
      ∧ ¬ (∀ i : Nat, johnTabDoe[i]? = some 9 → (MaskingName johnTabDoe)[i]? = some 9) := by
  refine ⟨by decide, by decide, by decide, ?_⟩
  intro h
  exact absurd (h 4 (by decide)) (by decide)

/-- C7, amended: `MaskingName` splits on the space byte and rejoins with a space: the output
has a space byte exactly at the positions where the input has one, and the tokens between
the spaces are masked independently of each other, so the name made of the space-free
tokens `l` joined by spaces is masked to the masked tokens joined by spaces (for
`John Doe` the space is kept and `John` and `Doe` are masked as separate tokens). -/
theorem C7_space_separator_preserved (s : GoString) (l : List GoString)
    (hl : l ≠ []) (hall : ∀ t ∈ l, spaceByte ∉ t) :
    (∀ i : Nat, (MaskingName s)[i]? = some spaceByte ↔ s[i]? = some spaceByte)
      ∧ MaskingName (Join spaceByte l) = Join spaceByte (l.map MaskingName)
      ∧ MaskingName (ascii "John Doe")
          = MaskingName (ascii "John") ++ spaceByte :: MaskingName (ascii "Doe") := by
  refine ⟨?_, ?_, by decide⟩
  · intro i
    have h := sepPos_Join_map spaceByte maskToken length_maskToken
      (maskToken_noSep spaceByte (by decide)) (Split spaceByte s) (Split_noSep spaceByte s) i
    rw [Join_Split] at h
    rw [MaskingName_eq]
    exact h
  · rw [MaskingName_Join l hl hall]
    congr 1
    apply List.map_congr_left
    intro t ht
    exact (MaskingName_token t (hall t ht)).symm

theorem C7_space_separator_preserved_witness :
    (∀ i : Nat, (MaskingName (ascii "Matt Le Tissier"))[i]? = some spaceByte
        ↔ (ascii "Matt Le Tissier")[i]? = some spaceByte)
      ∧ MaskingName (Join spaceByte [ascii "Matt", ascii "Le", ascii "Tissier"])
          = Join spaceByte ([ascii "Matt", ascii "Le", ascii "Tissier"].map MaskingName)
      ∧ MaskingName (ascii "John Doe")
          = MaskingName (ascii "John") ++ spaceByte :: MaskingName (ascii "Doe") :=
  C7_space_separator_preserved (ascii "Matt Le Tissier")
    [ascii "Matt", ascii "Le", ascii "Tissier"] (by decide) (by decide)

/-- C8, as the claim states it, fails: `MaskingName("John Doe")` is not `"Jo** Do*"`. -/
theorem C8_john_doe_not_as_claimed :
    MaskingName (ascii "John Doe") ≠ ascii "Jo** Do*" := by
  decide

/-- C8, amended: `MaskingName("John Doe") = "Jo** D**"`: the 4-byte token `John` becomes
`Jo**`, the separator `" "` is kept, and the 3-byte token `Doe` becomes `D**`. -/
theorem C8_john_doe :
    MaskingName (ascii "John Doe") = ascii "Jo** D**"
      ∧ MaskingName (ascii "John") = ascii "Jo**"
      ∧ MaskingName (ascii "Doe") = ascii "D**"
      ∧ ascii "Jo** D**" = ascii "Jo**" ++ spaceByte :: ascii "D**" := by
  decide

/-- C9: `MaskingName` gives the outputs of its doc comment: `"Johnny Depp"` becomes
`"Jo***y De**"`, `"Nur Ady"` becomes `"N** A**"` and `"Matt Le Tissier"` becomes
`"Ma** Le Ti****r"`. -/
theorem C9_maskingName_doc_examples :
    MaskingName (ascii "Johnny Depp") = ascii "Jo***y De**"
      ∧ MaskingName (ascii "Nur Ady") = ascii "N** A**"
      ∧ MaskingName (ascii "Matt Le Tissier") = ascii "Ma** Le Ti****r" := by
  decide

/-- C10: `MaskingEmail` gives the outputs of its doc comment: `"johnny.depp@gmail.com"`
becomes `"jo********p@gm******m"`, `"nur@gmail.com"` becomes `"n**@gm******m"` and
`"matt@gmail.com"` becomes `"ma**@gm******m"`. -/
theorem C10_maskingEmail_doc_examples :
    MaskingEmail (ascii "johnny.depp@gmail.com") = ascii "jo********p@gm******m"
      ∧ MaskingEmail (ascii "nur@gmail.com") = ascii "n**@gm******m"
      ∧ MaskingEmail (ascii "matt@gmail.com") = ascii "ma**@gm******m" := by
  decide

/-! Further lemmas on `Split`, `Join` and the two fill loops -/

theorem Split_append (sep : UInt8) (b : GoString) :
    ∀ a, Split sep (a ++ sep :: b) = Split sep a ++ Split sep b := by
  intro a
  induction a with
  | nil => exact Split_cons_sep sep b
  | cons c cs ih =>
    by_cases h : c = sep
    · subst h
      rw [List.cons_append, Split_cons_sep, Split_cons_sep, ih]
      rfl
    · obtain ⟨p, ps, h1, h2⟩ := Split_cons_ne sep c cs h
      rw [List.cons_append, Split, if_neg h, ih, h2, h1]
      rfl

theorem Join_append (sep : UInt8) (l2 : List GoString) (h2 : l2 ≠ []) :
    ∀ l1 : List GoString, l1 ≠ [] →
      Join sep (l1 ++ l2) = Join sep l1 ++ sep :: Join sep l2 := by
  intro l1
  induction l1 with
  | nil => intro h; exact absurd rfl h
  | cons a r ih =>
    intro _
    cases r with
    | nil =>
      rw [List.singleton_append, Join_cons_of_ne_nil _ _ _ h2]
      rfl
    | cons b r2 =>
      have e1 : Join sep (a :: (b :: r2 ++ l2)) = a ++ sep :: Join sep (b :: r2 ++ l2) :=
        Join_cons_of_ne_nil _ _ _ (by simp)
      have e2 : Join sep (a :: b :: r2) = a ++ sep :: Join sep (b :: r2) := rfl
      rw [List.cons_append, e1, ih (by simp), e2, List.append_assoc]
      rfl

theorem MaskingName_append (a b : GoString) :
    MaskingName (a ++ spaceByte :: b) = MaskingName a ++ spaceByte :: MaskingName b := by
  rw [MaskingName_eq, MaskingName_eq a, MaskingName_eq b, Split_append, List.map_append,
    Join_append _ _ (by simpa using Split_ne_nil spaceByte b) _
      (by simpa using Split_ne_nil spaceByte a)]

theorem MaskingName_spacePos (s : GoString) (i : Nat) :
    (MaskingName s)[i]? = some spaceByte ↔ s[i]? = some spaceByte := by
  have h := sepPos_Join_map spaceByte maskToken length_maskToken
    (maskToken_noSep spaceByte (by decide)) (Split spaceByte s) (Split_noSep spaceByte s) i
  rw [Join_Split] at h
  rw [MaskingName_eq]
  exact h

theorem maskExcept_get (s : GoString) (n : Nat) (m : UInt8) (hn : n < s.length) (i : Nat) :
    (MaskExceptLastNthCharacter s n m)[i]?
      = if i < s.length - n then some m else s[i]? := by
  rw [maskExcept_eq, if_neg (by omega)]
  by_cases h : i < s.length - n
  · rw [if_pos h, List.getElem?_append_left (by simpa using h)]
    simp [h]
  · rw [if_neg h, List.getElem?_append_right (by simpa using h), List.length_replicate,
      List.getElem?_drop]
    congr 1
    omega

theorem maskLast_get (s : GoString) (n : Nat) (m : UInt8) (hn : n < s.length) (i : Nat)
    (hi : i < s.length) :
    (MaskLastNthCharacter s n m)[i]?
      = if i < s.length - n then s[i]? else some m := by
  rw [maskLast_eq, if_neg (by omega)]
  have hl : (s.take (s.length - n)).length = s.length - n := by simp
  by_cases h : i < s.length - n
  · rw [if_pos h, List.getElem?_append_left (by omega), List.getElem?_take, if_pos h]
  · rw [if_neg h, List.getElem?_append_right (by omega), hl]
    have : i - (s.length - n) < n := by omega
    simp [this]

theorem maskExcept_congr (s t : GoString) (n : Nat) (m : UInt8)
    (hlen : s.length = t.length)
    (hlast : s.drop (s.length - n) = t.drop (t.length - n)) :
    MaskExceptLastNthCharacter s n m = MaskExceptLastNthCharacter t n m := by
  rw [maskExcept_eq, maskExcept_eq, ← hlen]
  by_cases h : s.length ≤ n
  · rw [if_pos h, if_pos h]
    have e : s.length - n = 0 := by omega
    have e2 : t.length - n = 0 := by omega
    rw [e, e2] at hlast
    simpa using hlast
  · rw [if_neg h, if_neg h, hlast, hlen]

/-! The claims, continued -/

/-- C11: at the input of the doc example of `MaskingPhoneNumber`, `"08000000111"`, the code
returns `"XXXXXXX0111"`, with the upper-case mask byte `CharacterX`, and not the
`"xxxxxxx0111"` of the doc comment. -/
theorem C11_phone_doc_example_upper_case :
    MaskingPhoneNumber (ascii "08000000111") = ascii "XXXXXXX0111"
      ∧ MaskingPhoneNumber (ascii "08000000111") ≠ ascii "xxxxxxx0111"
      ∧ CharacterX = 88
      ∧ ascii "X" = [88]
      ∧ ascii "x" = [120] := by
  decide

/-- C18: `MaskingName` is a homomorphism over single-space concatenation,
`MaskingName(a + " " + b) = MaskingName(a) + " " + MaskingName(b)` for all strings `a` and
`b`, and the output has a space byte exactly at the positions where the input has one, also
for leading, trailing and consecutive spaces. -/
theorem C18_maskingName_space_homomorphism (a b s : GoString) :
    MaskingName (a ++ spaceByte :: b) = MaskingName a ++ spaceByte :: MaskingName b
      ∧ (∀ i : Nat, (MaskingName s)[i]? = some spaceByte ↔ s[i]? = some spaceByte)
      ∧ MaskingName (ascii " John  Doe ") = ascii " Jo**  D** " :=
  ⟨MaskingName_append a b, MaskingName_spacePos s, by decide⟩

/-- C19: `MaskLastNthCharacter(s, n, m)` is `s` when `len(s) <= n` and otherwise the first
`len(s) - n` bytes of `s` followed by `n` copies of `m`; `MaskingLastCharPhoneNumber` returns
a string of at most 4 bytes unchanged; and when `len(s) > n` every position below
`len(s) - n` holds `m` in `MaskExceptLastNthCharacter(s, n, m)` and the byte of `s` in
`MaskLastNthCharacter(s, n, m)`, and every other position the other way round. -/
theorem C19_maskLastNth_spec (s : GoString) (n : Nat) (m : UInt8) :
    MaskLastNthCharacter s n m
        = (if s.length ≤ n then s
           else s.take (s.length - n) ++ List.replicate n m)
      ∧ MaskingLastCharPhoneNumber s
        = (if s.length ≤ 4 then s
           else s.take (s.length - 4) ++ List.replicate 4 88)
      ∧ (n < s.length → ∀ i : Nat, i < s.length →
          if i < s.length - n then
            (MaskExceptLastNthCharacter s n m)[i]? = some m
              ∧ (MaskLastNthCharacter s n m)[i]? = s[i]?
          else
            (MaskExceptLastNthCharacter s n m)[i]? = s[i]?
              ∧ (MaskLastNthCharacter s n m)[i]? = some m) := by
  refine ⟨maskLast_eq s n m, maskLast_eq s 4 _, ?_⟩
  intro hn i hi
  rw [maskExcept_get s n m hn i, maskLast_get s n m hn i hi]
  split_ifs <;> exact ⟨rfl, rfl⟩

theorem C19_maskLastNth_spec_witness :
    MaskLastNthCharacter (ascii "6281260695203") 4 88 = ascii "628126069XXXX"
      ∧ MaskingLastCharPhoneNumber (ascii "1234") = ascii "1234"
      ∧ (MaskExceptLastNthCharacter (ascii "123456") 4 88)[1]? = some 88
      ∧ (MaskLastNthCharacter (ascii "123456") 4 88)[1]? = (ascii "123456")[1]?
      ∧ (MaskExceptLastNthCharacter (ascii "123456") 4 88)[2]? = (ascii "123456")[2]?
      ∧ (MaskLastNthCharacter (ascii "123456") 4 88)[2]? = some 88 := by
  have h1 := (C19_maskLastNth_spec (ascii "6281260695203") 4 88).1
  have h2 := (C19_maskLastNth_spec (ascii "1234") 4 88).2.1
  have h3 := (C19_maskLastNth_spec (ascii "123456") 4 88).2.2 (by decide) 1 (by decide)
  have h4 := (C19_maskLastNth_spec (ascii "123456") 4 88).2.2 (by decide) 2 (by decide)
  rw [if_pos (by decide)] at h3
  rw [if_neg (by decide)] at h4
  exact ⟨h1.trans (by decide), h2.trans (by decide), h3.1, h3.2, h4.1, h4.2⟩

/-- C20: the output of `MaskExceptLastNthCharacter(·, n, m)` depends only on the length and
the last `n` bytes of its input: two strings of equal length that agree on their last `n`
bytes have the same output, and so two phone numbers of equal length with the same last 4
bytes have the same `MaskingPhoneNumber` output. -/
theorem C20_maskExcept_hides_prefix (s t p q : GoString) (n : Nat) (m : UInt8)
    (hlen : s.length = t.length)
    (hlast : s.drop (s.length - n) = t.drop (t.length - n))
    (hplen : p.length = q.length)
    (hplast : p.drop (p.length - 4) = q.drop (q.length - 4)) :
    MaskExceptLastNthCharacter s n m = MaskExceptLastNthCharacter t n m
      ∧ MaskingPhoneNumber p = MaskingPhoneNumber q :=
  ⟨maskExcept_congr s t n m hlen hlast, maskExcept_congr p q 4 _ hplen hplast⟩

theorem C20_maskExcept_hides_prefix_witness :
    MaskExceptLastNthCharacter (ascii "secret-abc") 3 42
        = MaskExceptLastNthCharacter (ascii "public-abc") 3 42
      ∧ MaskingPhoneNumber (ascii "6281260695203") = MaskingPhoneNumber (ascii "6289999995203") :=
  C20_maskExcept_hides_prefix (ascii "secret-abc") (ascii "public-abc")
    (ascii "6281260695203") (ascii "6289999995203") 3 42
    (by decide) (by decide) (by decide) (by decide)


/-! The normalizer and the TDR assembler -/

theorem expand_of_not_collection (parse : GoString → Option Json)
    (rules : Classification → GoString → GoString) (maskEnabled : Bool) (depth : Nat)
    (s : GoString) (h : ∀ j, parse s = some j → j.isCollection = false) :
    expand parse rules maskEnabled depth s = .string s := by
  cases depth with
  | zero => rfl
  | succ d =>
    cases hp : parse s with
    | none => simp only [expand, hp]
    | some j =>
      have hj := h j hp
      cases j <;> simp_all [expand, Json.isCollection]

theorem expand_ne_null (parse : GoString → Option Json)
    (rules : Classification → GoString → GoString) (maskEnabled : Bool) (depth : Nat)
    (s : GoString) : expand parse rules maskEnabled depth s ≠ .null := by
  cases depth with
  | zero => simp [expand]
  | succ d =>
    cases hp : parse s with
    | none => simp [expand, hp]
    | some j => cases j <;> simp [expand, hp, Json.toValue, normalizeWith]

theorem normalizeSlot_ne_null (parse : GoString → Option Json)
    (rules : Classification → GoString → GoString) (maskEnabled : Bool) (depth : Nat)
    (v : Value) : normalizeSlot parse rules maskEnabled depth v ≠ .null := by
  cases v with
  | string s => exact expand_ne_null parse rules maskEnabled depth s
  | _ => simp [normalizeSlot, normalize, normalizeWith]

theorem normalizeSlot_string (parse : GoString → Option Json)
    (rules : Classification → GoString → GoString) (maskEnabled : Bool) (depth : Nat)
    (s : GoString) :
    normalizeSlot parse rules maskEnabled depth (.string s)
      = expand parse rules maskEnabled depth s := rfl

mutual
theorem normalizeWith_json_congr (f g : GoString → Value)
    (r1 r2 : Classification → GoString → GoString) (m1 m2 : Bool)
    (hfg : ∀ s, f s = g s) :
    ∀ j, normalizeWith f r1 m1 (Json.toValue j) = normalizeWith g r2 m2 (Json.toValue j)
  | .null => rfl
  | .bool _ => rfl
  | .number _ => rfl
  | .string s => by
    simp only [Json.toValue, normalizeWith]
    exact hfg s
  | .array items => by
    simp only [Json.toValue, normalizeWith,
      normalizeItems_json_congr f g r1 r2 m1 m2 hfg items]
  | .object entries => by
    simp only [Json.toValue, normalizeWith,
      normalizeEntries_json_congr f g r1 r2 m1 m2 hfg entries]
theorem normalizeItems_json_congr (f g : GoString → Value)
    (r1 r2 : Classification → GoString → GoString) (m1 m2 : Bool)
    (hfg : ∀ s, f s = g s) :
    ∀ items, normalizeItems f r1 m1 (Json.itemsToValue items)
      = normalizeItems g r2 m2 (Json.itemsToValue items)
  | [] => rfl
  | j :: rest => by
    simp only [Json.itemsToValue, normalizeItems,
      normalizeWith_json_congr f g r1 r2 m1 m2 hfg j,
      normalizeItems_json_congr f g r1 r2 m1 m2 hfg rest]
theorem normalizeEntries_json_congr (f g : GoString → Value)
    (r1 r2 : Classification → GoString → GoString) (m1 m2 : Bool)
    (hfg : ∀ s, f s = g s) :
    ∀ entries, normalizeEntries f r1 m1 (Json.entriesToValue entries)
      = normalizeEntries g r2 m2 (Json.entriesToValue entries)
  | [] => rfl
  | (k, j) :: rest => by
    simp only [Json.entriesToValue, normalizeEntries,
      normalizeWith_json_congr f g r1 r2 m1 m2 hfg j,
      normalizeEntries_json_congr f g r1 r2 m1 m2 hfg rest]
end

theorem expand_of_plain (parse : GoString → Option Json)
    (rules : Classification → GoString → GoString) (maskEnabled : Bool) (depth : Nat)
    (s : GoString) (h : Json.plain parse (.string s) = true) :
    expand parse rules maskEnabled depth s = .string s := by
  apply expand_of_not_collection
  intro j hj
  simp only [Json.plain, hj, Bool.not_eq_true'] at h
  exact h

mutual
theorem normalizeWith_json_plain (parse : GoString → Option Json)
    (rules : Classification → GoString → GoString) (maskEnabled : Bool) (depth : Nat) :
    ∀ j, Json.plain parse j = true →
      normalizeWith (expand parse rules maskEnabled depth) rules maskEnabled (Json.toValue j)
        = Json.toValue j
  | .null, _ => rfl
  | .bool _, _ => rfl
  | .number _, _ => rfl
  | .string s, h => by
    simp only [Json.toValue, normalizeWith]
    exact expand_of_plain parse rules maskEnabled depth s h
  | .array items, h => by
    simp only [Json.plain] at h
    simp only [Json.toValue, normalizeWith,
      normalizeItems_json_plain parse rules maskEnabled depth items h]
  | .object entries, h => by
    simp only [Json.plain] at h
    simp only [Json.toValue, normalizeWith,
      normalizeEntries_json_plain parse rules maskEnabled depth entries h]
theorem normalizeItems_json_plain (parse : GoString → Option Json)
    (rules : Classification → GoString → GoString) (maskEnabled : Bool) (depth : Nat) :
    ∀ items, Json.plainItems parse items = true →
      normalizeItems (expand parse rules maskEnabled depth) rules maskEnabled
          (Json.itemsToValue items)
        = Json.itemsToValue items
  | [], _ => rfl
  | j :: rest, h => by
    simp only [Json.plainItems, Bool.and_eq_true] at h
    simp only [Json.itemsToValue, normalizeItems,
      normalizeWith_json_plain parse rules maskEnabled depth j h.1,
      normalizeItems_json_plain parse rules maskEnabled depth rest h.2]
theorem normalizeEntries_json_plain (parse : GoString → Option Json)
    (rules : Classification → GoString → GoString) (maskEnabled : Bool) (depth : Nat) :
    ∀ entries, Json.plainEntries parse entries = true →
      normalizeEntries (expand parse rules maskEnabled depth) rules maskEnabled
          (Json.entriesToValue entries)
        = Json.entriesToValue entries
  | [], _ => rfl
  | (k, j) :: rest, h => by
    simp only [Json.plainEntries, Bool.and_eq_true] at h
    simp only [Json.entriesToValue, normalizeEntries,
      normalizeWith_json_plain parse rules maskEnabled depth j h.1,
      normalizeEntries_json_plain parse rules maskEnabled depth rest h.2]
end

theorem slot_not_json (parse : GoString → Option Json)
    (rules : Classification → GoString → GoString) (maskEnabled : Bool) (depth : Nat)
    (s : GoString) (h : parse s = none ∨ ∃ j, parse s = some j ∧ j.isCollection = false) :
    normalizeSlot parse rules maskEnabled depth (.string s) = .string s := by
  rw [normalizeSlot_string]
  apply expand_of_not_collection
  intro j hj
  rcases h with h | ⟨w, hw, hc⟩
  · rw [h] at hj
    cases hj
  · rw [hw] at hj
    cases hj
    exact hc

/-! The claims on the modelled normalizer and on the global logger -/

/-- C12: in every assembled TDR each of the four payload slots (header, request, response,
additional data) that is nil is the empty mapping, no slot is ever null, and the scalar
fields are those of the input. -/
theorem C12_tdr_nil_slot_is_empty_mapping (parse : GoString → Option Json)
    (rules : Classification → GoString → GoString) (maskEnabled : Bool) (depth : Nat)
    (ctx : Context) (model : LogTdrModel) :
    ((model.Header = .null →
          (assembleTDR parse rules maskEnabled depth ctx model).2.Header = .mapping [])
        ∧ (model.Request = .null →
          (assembleTDR parse rules maskEnabled depth ctx model).2.Request = .mapping [])
        ∧ (model.Response = .null →
          (assembleTDR parse rules maskEnabled depth ctx model).2.Response = .mapping [])
        ∧ (model.AdditionalData = .null →
          (assembleTDR parse rules maskEnabled depth ctx model).2.AdditionalData = .mapping []))
      ∧ ((assembleTDR parse rules maskEnabled depth ctx model).2.Header ≠ .null
        ∧ (assembleTDR parse rules maskEnabled depth ctx model).2.Request ≠ .null
        ∧ (assembleTDR parse rules maskEnabled depth ctx model).2.Response ≠ .null
        ∧ (assembleTDR parse rules maskEnabled depth ctx model).2.AdditionalData ≠ .null)
      ∧ ((assembleTDR parse rules maskEnabled depth ctx model).2.AppName = model.AppName
        ∧ (assembleTDR parse rules maskEnabled depth ctx model).2.AppVersion = model.AppVersion
        ∧ (assembleTDR parse rules maskEnabled depth ctx model).2.ThreadID = model.ThreadID
        ∧ (assembleTDR parse rules maskEnabled depth ctx model).2.JourneyID = model.JourneyID
        ∧ (assembleTDR parse rules maskEnabled depth ctx model).2.ChainID = model.ChainID
        ∧ (assembleTDR parse rules maskEnabled depth ctx model).2.Path = model.Path
        ∧ (assembleTDR parse rules maskEnabled depth ctx model).2.Method = model.Method
        ∧ (assembleTDR parse rules maskEnabled depth ctx model).2.IP = model.IP
        ∧ (assembleTDR parse rules maskEnabled depth ctx model).2.SrcIP = model.SrcIP
        ∧ (assembleTDR parse rules maskEnabled depth ctx model).2.RespTime = model.RespTime
        ∧ (assembleTDR parse rules maskEnabled depth ctx model).2.ResponseCode = model.ResponseCode
        ∧ (assembleTDR parse rules maskEnabled depth ctx model).2.Error = model.Error) := by
  refine ⟨⟨?_, ?_, ?_, ?_⟩, ⟨?_, ?_, ?_, ?_⟩, ?_⟩
  · intro h
    simp only [assembleTDR, h, normalizeSlot]
  · intro h
    simp only [assembleTDR, h, normalizeSlot]
  · intro h
    simp only [assembleTDR, h, normalizeSlot]
  · intro h
    simp only [assembleTDR, h, normalizeSlot]
  · exact normalizeSlot_ne_null parse rules maskEnabled depth model.Header
  · exact normalizeSlot_ne_null parse rules maskEnabled depth model.Request
  · exact normalizeSlot_ne_null parse rules maskEnabled depth model.Response
  · exact normalizeSlot_ne_null parse rules maskEnabled depth model.AdditionalData
  · exact ⟨rfl, rfl, rfl, rfl, rfl, rfl, rfl, rfl, rfl, rfl, rfl, rfl⟩

theorem C12_tdr_nil_slot_is_empty_mapping_witness :
    (assembleTDR parseExample redact false 3 ctxValue
        (tdrData .null .null .null .null)).2.Header = .mapping []
      ∧ (assembleTDR parseExample redact false 3 ctxValue
        (tdrData .null .null .null .null)).2.Request = .mapping []
      ∧ (assembleTDR parseExample redact false 3 ctxValue
        (tdrData .null .null .null .null)).2.Response = .mapping []
      ∧ (assembleTDR parseExample redact false 3 ctxValue
        (tdrData .null .null .null .null)).2.AdditionalData = .mapping []
      ∧ (assembleTDR parseExample redact false 3 ctxValue
        (tdrData .null .null .null .null)).2.Error = ascii "error if any" :=
  have h := C12_tdr_nil_slot_is_empty_mapping parseExample redact false 3 ctxValue
    (tdrData .null .null .null .null)
  ⟨h.1.1 rfl, h.1.2.1 rfl, h.1.2.2.1 rfl, h.1.2.2.2 rfl,
    h.2.2.2.2.2.2.2.2.2.2.2.2.2.trans rfl⟩

/-- C14: a header, request, response or additional data that is a string which does not
parse as JSON, or parses to a bare scalar, is emitted as the same string; the assembler is a
total function, so no error is raised (`"00:Success"` stays `"00:Success"`). -/
theorem C14_non_json_string_is_kept (parse : GoString → Option Json)
    (rules : Classification → GoString → GoString) (maskEnabled : Bool) (depth : Nat)
    (ctx : Context) (model : LogTdrModel) (s : GoString)
    (h : parse s = none ∨ ∃ j, parse s = some j ∧ j.isCollection = false) :
    (model.Header = .string s →
        (assembleTDR parse rules maskEnabled depth ctx model).2.Header = .string s)
      ∧ (model.Request = .string s →
        (assembleTDR parse rules maskEnabled depth ctx model).2.Request = .string s)
      ∧ (model.Response = .string s →
        (assembleTDR parse rules maskEnabled depth ctx model).2.Response = .string s)
      ∧ (model.AdditionalData = .string s →
        (assembleTDR parse rules maskEnabled depth ctx model).2.AdditionalData = .string s) := by
  have e := slot_not_json parse rules maskEnabled depth s h
  refine ⟨?_, ?_, ?_, ?_⟩
  · intro hs
    simp only [assembleTDR, hs, e]
  · intro hs
    simp only [assembleTDR, hs, e]
  · intro hs
    simp only [assembleTDR, hs, e]
  · intro hs
    simp only [assembleTDR, hs, e]

theorem C14_non_json_string_is_kept_witness :
    ((assembleTDR parseExample redact false 3 ctxValue
          (tdrData (.string (ascii "00:Success")) (.string (ascii "00:Success"))
            (.string (ascii "00:Success")) (.string (ascii "00:Success")))).2.Header
          = .string (ascii "00:Success")
        ∧ (assembleTDR parseExample redact false 3 ctxValue
          (tdrData (.string (ascii "00:Success")) (.string (ascii "00:Success"))
            (.string (ascii "00:Success")) (.string (ascii "00:Success")))).2.Request
          = .string (ascii "00:Success")
        ∧ (assembleTDR parseExample redact false 3 ctxValue
          (tdrData (.string (ascii "00:Success")) (.string (ascii "00:Success"))
            (.string (ascii "00:Success")) (.string (ascii "00:Success")))).2.Response
          = .string (ascii "00:Success")
        ∧ (assembleTDR parseExample redact false 3 ctxValue
          (tdrData (.string (ascii "00:Success")) (.string (ascii "00:Success"))
            (.string (ascii "00:Success")) (.string (ascii "00:Success")))).2.AdditionalData
          = .string (ascii "00:Success"))
      ∧ ((assembleTDR parseExample redact true 3 ctxValue
          (tdrData (.string (ascii "123456")) (.string (ascii "123456"))
            (.string (ascii "123456")) (.string (ascii "123456")))).2.Header
          = .string (ascii "123456")
        ∧ (assembleTDR parseExample redact true 3 ctxValue
          (tdrData (.string (ascii "123456")) (.string (ascii "123456"))
            (.string (ascii "123456")) (.string (ascii "123456")))).2.Request
          = .string (ascii "123456")
        ∧ (assembleTDR parseExample redact true 3 ctxValue
          (tdrData (.string (ascii "123456")) (.string (ascii "123456"))
            (.string (ascii "123456")) (.string (ascii "123456")))).2.Response
          = .string (ascii "123456")
        ∧ (assembleTDR parseExample redact true 3 ctxValue
          (tdrData (.string (ascii "123456")) (.string (ascii "123456"))
            (.string (ascii "123456")) (.string (ascii "123456")))).2.AdditionalData
          = .string (ascii "123456")) :=
  have h1 := C14_non_json_string_is_kept parseExample redact false 3 ctxValue
    (tdrData (.string (ascii "00:Success")) (.string (ascii "00:Success"))
      (.string (ascii "00:Success")) (.string (ascii "00:Success")))
    (ascii "00:Success") (Or.inl rfl)
  have h2 := C14_non_json_string_is_kept parseExample redact true 3 ctxValue
    (tdrData (.string (ascii "123456")) (.string (ascii "123456"))
      (.string (ascii "123456")) (.string (ascii "123456")))
    (ascii "123456") (Or.inr ⟨.number (ascii "123456"), rfl, rfl⟩)
  ⟨⟨h1.1 rfl, h1.2.1 rfl, h1.2.2.1 rfl, h1.2.2.2 rfl⟩,
    ⟨h2.1 rfl, h2.2.1 rfl, h2.2.2.1 rfl, h2.2.2.2 rfl⟩⟩

/-- C17: when the global logger is unset or set to nil, `getInstance` returns the no-op
logger and each of `Debug`, `Info`, `Warn`, `Error`, `Fatal`, `Panic` and `TDR` returns
normally and writes nothing; when it is set to a logger `l`, `getInstance` returns `l` and
each package-level function is the method of `l` on the same arguments. -/
theorem C17_global_logger_delegates (l : LoggerInterface) (ctx : Context)
    (message : GoString) (fields : List Field) (tdr : LogTdrModel) :
    (getInstance none = NewNoopLogger
        ∧ getInstance (SetGlobalLogger none) = NewNoopLogger
        ∧ (Debug (SetGlobalLogger none) ctx message fields).outcome = .returned
        ∧ (Info (SetGlobalLogger none) ctx message fields).outcome = .returned
        ∧ (Warn (SetGlobalLogger none) ctx message fields).outcome = .returned
        ∧ (Error (SetGlobalLogger none) ctx message fields).outcome = .returned
        ∧ (Fatal (SetGlobalLogger none) ctx message fields).outcome = .returned
        ∧ (Panic (SetGlobalLogger none) ctx message fields).outcome = .returned
        ∧ (TDR (SetGlobalLogger none) ctx tdr).outcome = .returned)
      ∧ (getInstance (SetGlobalLogger (some l)) = l
        ∧ Debug (SetGlobalLogger (some l)) ctx message fields = l.Debug ctx message fields
        ∧ Info (SetGlobalLogger (some l)) ctx message fields = l.Info ctx message fields
        ∧ Warn (SetGlobalLogger (some l)) ctx message fields = l.Warn ctx message fields
        ∧ Error (SetGlobalLogger (some l)) ctx message fields = l.Error ctx message fields
        ∧ Fatal (SetGlobalLogger (some l)) ctx message fields = l.Fatal ctx message fields
        ∧ Panic (SetGlobalLogger (some l)) ctx message fields = l.Panic ctx message fields
        ∧ TDR (SetGlobalLogger (some l)) ctx tdr = l.TDR ctx tdr) :=
  ⟨⟨rfl, rfl, rfl, rfl, rfl, rfl, rfl, rfl, rfl⟩, ⟨rfl, rfl, rfl, rfl, rfl, rfl, rfl, rfl⟩⟩

theorem C17_global_logger_delegates_witness :
    (Fatal (SetGlobalLogger none) ctxValue (ascii "log message") []).outcome = .returned
      ∧ (Panic (SetGlobalLogger none) ctxValue (ascii "log message") []).outcome = .returned
      ∧ (Fatal (SetGlobalLogger (some lineLogger)) ctxValue (ascii "log message") []).outcome
        = .exited
      ∧ (Panic (SetGlobalLogger (some lineLogger)) ctxValue (ascii "log message") []).outcome
        = .panicked :=
  have h := C17_global_logger_delegates lineLogger ctxValue (ascii "log message") []
    (tdrData .null .null .null .null)
  ⟨h.1.2.2.2.2.2.2.1, h.1.2.2.2.2.2.2.2.1, congrArg Effect.outcome h.2.2.2.2.2.2.1,
    congrArg Effect.outcome h.2.2.2.2.2.2.2.1⟩

/-! `SanitizePhoneNumber` and the max age of the file output -/

theorem HasPrefix_iff (s p : GoString) : HasPrefix s p = true ↔ p <+: s := by
  unfold HasPrefix
  rw [Bool.and_eq_true, decide_eq_true_iff, decide_eq_true_iff, List.prefix_iff_eq_take]
  constructor
  · intro h
    exact h.2.symm
  · intro h
    refine ⟨?_, h.symm⟩
    have hl := congrArg List.length h
    rw [List.length_take] at hl
    omega

theorem ascii_628 : ascii "628" = [54, 50, 56] := by decide

theorem ascii_08 : ascii "08" = [48, 56] := by decide

theorem ascii_8 : ascii "8" = [56] := by decide

theorem sanitize_628 (p : GoString) (h : ascii "628" <+: p) : SanitizePhoneNumber p = p := by
  unfold SanitizePhoneNumber
  rw [if_pos ((HasPrefix_iff _ _).mpr h)]

theorem not_628_of_08 (p : GoString) (h : ascii "08" <+: p) : ¬ ascii "628" <+: p := by
  obtain ⟨r, rfl⟩ := h
  rw [ascii_08, ascii_628]
  simp

theorem not_628_of_8 (p : GoString) (h : ascii "8" <+: p) : ¬ ascii "628" <+: p := by
  obtain ⟨r, rfl⟩ := h
  rw [ascii_8, ascii_628]
  simp

theorem not_08_of_8 (p : GoString) (h : ascii "8" <+: p) : ¬ ascii "08" <+: p := by
  obtain ⟨r, rfl⟩ := h
  rw [ascii_8, ascii_08]
  simp

theorem sanitize_08 (p : GoString) (h : ascii "08" <+: p) :
    SanitizePhoneNumber p = ascii "628" ++ p.drop 2 := by
  unfold SanitizePhoneNumber
  rw [if_neg (fun e => not_628_of_08 p h ((HasPrefix_iff _ _).mp e)),
    if_pos ((HasPrefix_iff _ _).mpr h)]

theorem sanitize_8 (p : GoString) (h : ascii "8" <+: p) :
    SanitizePhoneNumber p = ascii "628" ++ p.drop 1 := by
  unfold SanitizePhoneNumber
  rw [if_neg (fun e => not_628_of_8 p h ((HasPrefix_iff _ _).mp e)),
    if_neg (fun e => not_08_of_8 p h ((HasPrefix_iff _ _).mp e)),
    if_pos ((HasPrefix_iff _ _).mpr h)]

theorem sanitize_other (p : GoString) (h1 : ¬ ascii "628" <+: p) (h2 : ¬ ascii "08" <+: p)
    (h3 : ¬ ascii "8" <+: p) : SanitizePhoneNumber p = p := by
  unfold SanitizePhoneNumber
  rw [if_neg (fun e => h1 ((HasPrefix_iff _ _).mp e)),
    if_neg (fun e => h2 ((HasPrefix_iff _ _).mp e)),
    if_neg (fun e => h3 ((HasPrefix_iff _ _).mp e))]

theorem sanitize_idem (p : GoString) :
    SanitizePhoneNumber (SanitizePhoneNumber p) = SanitizePhoneNumber p := by
  by_cases h1 : ascii "628" <+: p
  · rw [sanitize_628 p h1, sanitize_628 p h1]
  · by_cases h2 : ascii "08" <+: p
    · rw [sanitize_08 p h2]
      exact sanitize_628 _ (List.prefix_append _ _)
    · by_cases h3 : ascii "8" <+: p
      · rw [sanitize_8 p h3]
        exact sanitize_628 _ (List.prefix_append _ _)
      · rw [sanitize_other p h1 h2 h3, sanitize_other p h1 h2 h3]

theorem wrapInt64_of_range (x : Int) (h1 : -9223372036854775808 ≤ x)
    (h2 : x ≤ 9223372036854775807) : wrapInt64 x = x := by
  unfold wrapInt64
  omega

theorem wrapInt64_range (x : Int) :
    -9223372036854775808 ≤ wrapInt64 x ∧ wrapInt64 x ≤ 9223372036854775807 := by
  unfold wrapInt64
  omega

theorem wrapInt64_congr (x : Int) : (wrapInt64 x - x) % 18446744073709551616 = 0 := by
  unfold wrapInt64
  omega

theorem fileMaxAge_congr (d : Int) :
    (fileMaxAge d - d * 86400000000000) % 18446744073709551616 = 0 := by
  unfold fileMaxAge timeHour
  have h1 := wrapInt64_congr (d * 24)
  have h2 := wrapInt64_congr (wrapInt64 (d * 24) * 3600000000000)
  omega

/-! The last claims -/

/-- C21: `SanitizePhoneNumber` is idempotent; a number that starts with `628` is returned
as it is, one that starts with `08` becomes `628` followed by the number without its first
2 bytes, one that starts with `8` becomes `628` followed by the number without its first
byte, and any other string is returned unchanged. -/
theorem C21_sanitizePhoneNumber_spec (p : GoString) :
    SanitizePhoneNumber (SanitizePhoneNumber p) = SanitizePhoneNumber p
      ∧ (ascii "628" <+: p → SanitizePhoneNumber p = p)
      ∧ (ascii "08" <+: p → SanitizePhoneNumber p = ascii "628" ++ p.drop 2)
      ∧ (ascii "8" <+: p → SanitizePhoneNumber p = ascii "628" ++ p.drop 1)
      ∧ (¬ ascii "628" <+: p → ¬ ascii "08" <+: p → ¬ ascii "8" <+: p →
          SanitizePhoneNumber p = p) :=
  ⟨sanitize_idem p, sanitize_628 p, sanitize_08 p, sanitize_8 p, sanitize_other p⟩

theorem C21_sanitizePhoneNumber_spec_witness :
    SanitizePhoneNumber (ascii "6281260695203") = ascii "6281260695203"
      ∧ SanitizePhoneNumber (ascii "081260695203") = ascii "6281260695203"
      ∧ SanitizePhoneNumber (ascii "81260695203") = ascii "6281260695203"
      ∧ SanitizePhoneNumber (ascii "+6281260695203") = ascii "+6281260695203"
      ∧ SanitizePhoneNumber (SanitizePhoneNumber (ascii "081260695203"))
        = SanitizePhoneNumber (ascii "081260695203") :=
  ⟨(C21_sanitizePhoneNumber_spec (ascii "6281260695203")).2.1 (by decide),
    ((C21_sanitizePhoneNumber_spec (ascii "081260695203")).2.2.1 (by decide)).trans
      (by decide),
    ((C21_sanitizePhoneNumber_spec (ascii "81260695203")).2.2.2.1 (by decide)).trans
      (by decide),
    (C21_sanitizePhoneNumber_spec (ascii "+6281260695203")).2.2.2.2
      (by decide) (by decide) (by decide),
    (C21_sanitizePhoneNumber_spec (ascii "081260695203")).1⟩

/-- C22: the max age that `WithFileOutput` computes, `FileMaxAge * 24 * time.Hour` in
wrapping `int64` nanoseconds, is exactly `d * 86400000000000` with no overflow for every
`FileMaxAge` `d` from 0 to 106751; for every `e` above 106751 the mathematical product
exceeds `2^63 - 1` and the computed value is another one, congruent to it modulo `2^64`;
this is so for `time.Hour` (3600000000000), where the computed value is
3440217510912196608. -/
theorem C22_fileMaxAge_wraps (d e : Int) (hd0 : 0 ≤ d) (hd1 : d ≤ 106751)
    (he : 106751 < e) :
    (fileMaxAge d = d * 86400000000000
        ∧ wrapInt64 (d * 24) = d * 24
        ∧ d * 86400000000000 ≤ 9223372036854775807)
      ∧ (9223372036854775807 < e * 86400000000000
        ∧ fileMaxAge e ≠ e * 86400000000000
        ∧ (fileMaxAge e - e * 86400000000000) % 18446744073709551616 = 0)
      ∧ (106751 < timeHour
        ∧ fileMaxAge timeHour = 3440217510912196608
        ∧ timeHour * 86400000000000 = 311040000000000000000000000) := by
  refine ⟨⟨?_, ?_, by omega⟩, ⟨by omega, ?_, fileMaxAge_congr e⟩, ⟨by decide, by decide, by decide⟩⟩
  · unfold fileMaxAge timeHour
    rw [wrapInt64_of_range (d * 24) (by omega) (by omega),
      wrapInt64_of_range (d * 24 * 3600000000000) (by omega) (by omega)]
    omega
  · exact wrapInt64_of_range (d * 24) (by omega) (by omega)
  · intro h
    have hr := (wrapInt64_range (wrapInt64 (e * 24) * timeHour)).2
    unfold fileMaxAge at h
    omega

theorem C22_fileMaxAge_wraps_witness :
    (fileMaxAge 30 = 30 * 86400000000000
        ∧ wrapInt64 (30 * 24) = 30 * 24
        ∧ (30 : Int) * 86400000000000 ≤ 9223372036854775807)
      ∧ (9223372036854775807 < timeHour * 86400000000000
        ∧ fileMaxAge timeHour ≠ timeHour * 86400000000000
        ∧ (fileMaxAge timeHour - timeHour * 86400000000000) % 18446744073709551616 = 0)
      ∧ (106751 < timeHour
        ∧ fileMaxAge timeHour = 3440217510912196608
        ∧ timeHour * 86400000000000 = 311040000000000000000000000) :=
  C22_fileMaxAge_wraps 30 timeHour (by decide) (by decide) (by decide)

end Logger
